import Mathlib

/-!
# Verification of the `squema` schema/value-object library

A shallow embedding of `src/squema.py` (typed record classes with a
field-registration metaclass, a per-field coercion pipeline, configurable
encoder/decoder registries, and strict/mutable access policies), together
with proofs settling the frozen claims about it.

Modelling conventions:
* Python runtime values are the inductive `Value`; an instance of a schema
  class is `Value.inst` carrying its class.  Class objects are identified by
  their names (all example classes in this development have distinct names).
* Python exceptions become the `PyError` inductive; fallible operations
  return `Except PyError _`.
* Encoder/decoder registries are insertion-ordered association lists keyed by
  runtime-type keys (`TyKey`), matching every key actually used by the source
  defaults and test suite.  Registered functions are modelled as tags with an
  executable interpreter, keeping the development computable.
* Ordered dictionaries (`dict` / `OrderedDict`) are association lists; the
  assignment `d[k] = v` is `odSet` (in-place update when the key exists,
  append otherwise), exactly CPython's insertion-order semantics.
-/

set_option maxHeartbeats 1000000

namespace Squema

/-- Python exceptions raised by the library, by kind and message. -/
inductive PyError where
  | typeError (msg : String)
  | valueError (msg : String)
  | attributeError (msg : String)
  | keyError (msg : String)
  | assertionError (msg : String)
  deriving DecidableEq, Repr

/-- Keys of the encoder/decoder registries: Python type objects.  The named
constructors are the builtin/stdlib types the source's default registries and
tests mention; `tUser s` is a user-defined class named `s`. -/
inductive TyKey where
  | tUUID | tDecimal | tSet | tFrozenset | tGenerator
  | tDate | tTime | tDatetime | tEnum | tBytes | tTimedelta
  | tInt | tStr | tBool | tDict | tList
  | tUser (s : String)
  deriving DecidableEq, Repr

/-- Name of the type (`cls.__name__`). -/
def tyName : TyKey → String
  | .tUUID => "UUID" | .tDecimal => "Decimal" | .tSet => "set"
  | .tFrozenset => "frozenset" | .tGenerator => "generator"
  | .tDate => "date" | .tTime => "time" | .tDatetime => "datetime"
  | .tEnum => "Enum" | .tBytes => "bytes" | .tTimedelta => "timedelta"
  | .tInt => "int" | .tStr => "str" | .tBool => "bool"
  | .tDict => "dict" | .tList => "list"
  | .tUser s => s

/-- Tags for the serializer functions stored in the encoder registry
(the values of `Config.encoders`). -/
inductive EncTag where
  | eStr           -- `str`
  | eFloat         -- `float`
  | eList          -- `list`
  | eEnumValue     -- `lambda e: e.value`
  | eBytesDecode   -- `lambda o: o.decode()`
  | eTotalSeconds  -- `lambda td: td.total_seconds()`
  deriving DecidableEq, Repr

/-- Tags for the parser functions stored in the decoder registry
(the values of `Config.decoders`). -/
inductive DecTag where
  | dDate | dTime | dDatetime
  deriving DecidableEq, Repr

/-- Tags for arbitrary callable type specifiers (`FunctionType` annotations
such as `typing.NewType` wrappers). -/
inductive FuncTag where
  | fIdentity
  deriving DecidableEq, Repr

/-- Association-list lookup by key (first match), i.e. Python `d[k]` /
`d.get(k)` read on an insertion-ordered dict. -/
def odFind {κ α : Type} [DecidableEq κ] (d : List (κ × α)) (k : κ) : Option α :=
  match d with
  | [] => none
  | p :: rest => if p.1 = k then some p.2 else odFind rest k

/-- Python `d[k] = v` on an insertion-ordered dict: overwrite in place when
the key is present, append otherwise. -/
def odSet {κ α : Type} [DecidableEq κ] (d : List (κ × α)) (k : κ) (v : α) :
    List (κ × α) :=
  match d with
  | [] => [(k, v)]
  | p :: rest => if p.1 = k then (k, v) :: rest else p :: odSet rest k v

/-- Python `d.update(src)` on insertion-ordered dicts. -/
def odUpdateAll {κ α : Type} [DecidableEq κ] (d src : List (κ × α)) :
    List (κ × α) :=
  src.foldl (fun acc p => odSet acc p.1 p.2) d

/-- A looked-up entry is structurally smaller than the table it came from
(used for the termination of the mutually recursive coercion pipeline). -/
theorem odFind_sizeOf_lt {κ α : Type} [DecidableEq κ] [SizeOf κ] [SizeOf α]
    {d : List (κ × α)} {k : κ} {v : α} (h : odFind d k = some v) :
    sizeOf v < sizeOf d := by
  induction d with
  | nil => simp [odFind] at h
  | cons p rest ih =>
    rw [odFind] at h
    by_cases hk : p.1 = k
    · simp only [hk, if_pos rfl] at h
      cases h
      cases p
      simp only [Prod.mk.sizeOf_spec, List.cons.sizeOf_spec]
      omega
    · simp only [if_neg hk] at h
      have := ih h
      simp only [List.cons.sizeOf_spec]
      omega

/-- The strict/mutable flags and the two conversion registries of a schema
class (`Config` in the source). -/
structure Config where
  strict : Bool
  mutable : Bool
  encoders : List (TyKey × EncTag)
  decoders : List (TyKey × DecTag)
  deriving DecidableEq, Repr

/-- The class-level default encoder registry of `Config`. -/
def defaultEncoders : List (TyKey × EncTag) :=
  [(.tUUID, .eStr), (.tDecimal, .eFloat), (.tSet, .eList),
   (.tFrozenset, .eList), (.tGenerator, .eList), (.tDate, .eStr),
   (.tTime, .eStr), (.tDatetime, .eStr), (.tEnum, .eEnumValue),
   (.tBytes, .eBytesDecode), (.tTimedelta, .eTotalSeconds)]

/-- The class-level default decoder registry of `Config`. -/
def defaultDecoders : List (TyKey × DecTag) :=
  [(.tDate, .dDate), (.tTime, .dTime), (.tDatetime, .dDatetime)]

/-- The default configuration (`Squema.__config__ = Config()`). -/
def defaultConfig : Config :=
  ⟨false, false, defaultEncoders, defaultDecoders⟩

mutual
/-- A field's declared-type specifier (the values of `__annotations__`):
a concrete runtime type, another schema class, or a bare callable converter
(e.g. a `typing.NewType` wrapper, which is a `FunctionType`). -/
inductive TypeSpec where
  | prim (t : TyKey)
  | nested (c : SClass)
  | func (f : FuncTag)

/-- A schema class as produced by `MetaSquema.__new__`: its name, its ordered
field table `__fields__` (field name, default value or sentinel), its merged
annotation table `__annotations__`, and its `__config__`. -/
inductive SClass where
  | mk (name : String) (fields : List (String × Value))
      (ann : List (String × TypeSpec)) (cfg : Config)

/-- Python runtime values.  `obj t payload` is an opaque instance of the
runtime type `t` (dates, enum members, ...); `inst c vs` is an instance of
the schema class `c` whose `__values__` table is `vs`; `unset` is the
process-wide `UNSET` sentinel. -/
inductive Value where
  | int (n : Int)
  | str (s : String)
  | bool (b : Bool)
  | vdict (es : List (String × Value))
  | vlist (es : List Value)
  | obj (t : TyKey) (payload : Nat)
  | inst (c : SClass) (values : List (String × Value))
  | unset
end

def SClass.name : SClass → String
  | .mk n _ _ _ => n

def SClass.fields : SClass → List (String × Value)
  | .mk _ f _ _ => f

def SClass.ann : SClass → List (String × TypeSpec)
  | .mk _ _ a _ => a

def SClass.cfg : SClass → Config
  | .mk _ _ _ c => c

/-- The identity test `value is UNSET` (the sentinel is a singleton). -/
def Value.isUnset : Value → Bool
  | .unset => true
  | _ => false

/-- `isinstance(unit, FunctionType)` on a type specifier. -/
def isFuncSpec : TypeSpec → Bool
  | .func _ => true
  | _ => false

/-- `cls.__bases__`: the DIRECT bases of the runtime types appearing in this
development (`bool` derives from `int`; `SubDate` derives from `date`;
`SubSubDate` derives from `SubDate`).  The terminal `object` base is omitted:
it is never a registry key, so walks through it behave identically. -/
def tyBases : TyKey → List TyKey
  | .tBool => [.tInt]
  | .tUser "SubDate" => [.tDate]
  | .tUser "SubSubDate" => [.tUser "SubDate"]
  | _ => []

/-- The full (transitive) ancestor chain of a runtime type, excluding the
type itself; `isinstance` and `issubclass` consult this whole chain. -/
def tyAncestors : TyKey → List TyKey
  | .tBool => [.tInt]
  | .tUser "SubDate" => [.tDate]
  | .tUser "SubSubDate" => [.tUser "SubDate", .tDate]
  | _ => []

/-- `isinstance(value, unit)`.  Schema classes are identified by their names
(all classes in this development have distinct names).  The specifier is
never a bare function here: `__getval__` guards this test with
`not isinstance(unit, FunctionType)`. -/
def typeMatches (v : Value) : TypeSpec → Bool
  | .prim t =>
    match v with
    | .int _ => t == .tInt
    | .str _ => t == .tStr
    | .bool _ => t == .tBool || t == .tInt   -- bool is a subclass of int
    | .vdict _ => t == .tDict
    | .vlist _ => t == .tList
    | .obj t' _ => t' == t || (tyAncestors t').contains t
    | .inst _ _ => false
    | .unset => false
  | .nested c =>
    match v with
    | .inst c' _ => c'.name == c.name
    | _ => false
  | .func _ => false

/-- `type(value).__name__`. -/
def pyTypeName : Value → String
  | .int _ => "int"
  | .str _ => "str"
  | .bool _ => "bool"
  | .vdict _ => "dict"
  | .vlist _ => "list"
  | .obj t _ => tyName t
  | .inst c _ => c.name
  | .unset => "UNSET"

/-- `type(value)` as a registry key. -/
def typeKeyOf : Value → TyKey
  | .int _ => .tInt
  | .str _ => .tStr
  | .bool _ => .tBool
  | .vdict _ => .tDict
  | .vlist _ => .tList
  | .obj t _ => t
  | .inst c _ => .tUser c.name
  | .unset => .tUser "UNSET"

/-- `str(value)`, modelled for the primitive payloads this development
coerces through `str`; other values fall back to their type name. -/
def pyStrVal : Value → String
  | .int n => toString n
  | .str s => s
  | .bool b => if b then "True" else "False"
  | v => pyTypeName v

/-- Python truthiness (`bool(value)`); a schema instance delegates to
`__len__`, the size of its values table. -/
def isTruthy : Value → Bool
  | .int n => n != 0
  | .str s => !s.isEmpty
  | .bool b => b
  | .vdict es => !es.isEmpty
  | .vlist es => !es.isEmpty
  | .obj _ _ => true
  | .inst _ vs => !vs.isEmpty
  | .unset => true

/-- `type(unit) is type`: true for plain-metaclass builtin classes, false for
enumeration classes (their metaclass is `EnumMeta`). -/
def plainMeta : TyKey → Bool
  | .tEnum => false
  | .tUser "Choice" => false
  | _ => true

/-- Calling a concrete class as a constructor, `t(value)`, for the classes
this development's coercions reach (`int`, `str`, `bool`). -/
def tyCall (t : TyKey) (v : Value) : Except PyError Value :=
  match t with
  | .tInt =>
    match v with
    | .int n => .ok (.int n)
    | .bool b => .ok (.int (if b then 1 else 0))
    | .str s =>
      match s.toInt? with
      | some n => .ok (.int n)
      | none =>
          .error (.valueError ("invalid literal for int() with base 10: " ++ s))
    | w =>
        .error (.typeError ("int() argument must be a string, a bytes-like object or a real number, not \x27" ++ pyTypeName w ++ "\x27"))
  | .tStr => .ok (.str (pyStrVal v))
  | .tBool => .ok (.bool (isTruthy v))
  | _ => .error (.typeError ("constructor call not modelled for " ++ tyName t))

/-- The default decoders (iso date/time parsers built by `parser`).  The
claims never exercise the parsing itself, so the produced calendar object is
abstracted; a non-string input fails as the source's matcher does. -/
def applyDec (d : DecTag) (v : Value) : Except PyError Value :=
  match v with
  | .str _ =>
      .ok (.obj (match d with
                 | .dDate => .tDate
                 | .dTime => .tTime
                 | .dDatetime => .tDatetime) 0)
  | w => .error (.valueError (pyTypeName w ++ " is not a valid iso-formatted date/time"))

/-- Bare callable type specifiers (e.g. `typing.NewType` wrappers, which
return their argument unchanged). -/
def applyFunc : FuncTag → Value → Except PyError Value
  | .fIdentity, v => .ok v

/-- The registered serializer functions.  The claims only concern WHICH
serializer `encode` selects, so the JSON-safe images are abstracted: the
enum serializer extracts the member's payload value, the rest are total
stand-ins. -/
def applyEnc (e : EncTag) (v : Value) : Except PyError Value :=
  match e with
  | .eStr => .ok (.str (pyStrVal v))
  | .eEnumValue =>
    match v with
    | .obj _ p => .ok (.int (Int.ofNat p))
    | w => .ok w
  | _ => .ok v

/-- `unit in self.__config__.decoders`: the registry keys are concrete
runtime types throughout this development, so only a `prim` specifier can
hit. -/
def decFind (cfg : Config) : TypeSpec → Option DecTag
  | .prim t => odFind cfg.decoders t
  | _ => none

/-- The `except TypeError` handler of `__getval__`'s nested-schema branch:
it interpolates `value.__name__` into the message it is about to raise.
None of the modelled runtime values is a class or function object — the only
bearers of `__name__` — so the attribute lookup itself fails and an
`AttributeError` escapes instead of the intended shape-mismatch `TypeError`. -/
def dunderName : Value → Option String := fun _ => none

def nestedShapeError (key : String) (v : Value) : Except PyError Value :=
  match dunderName v with
  | some n =>
      .error (.typeError ("The value for \"" ++ key ++ "\" must be a mapping, not <" ++ n ++ ">"))
  | none =>
      .error (.attributeError ("\x27" ++ pyTypeName v ++ "\x27 object has no attribute \x27__name__\x27"))

/-- The annotation table of a class is one of its structural components. -/
theorem SClass.ann_sizeOf_lt (cls : SClass) : sizeOf cls.ann < sizeOf cls := by
  cases cls with
  | mk n f a c =>
    simp only [SClass.ann, SClass.mk.sizeOf_spec]
    omega

mutual
/-- `Squema.__getval__(key, value)`: convert a raw value to the type declared
for `key` in the annotations.  Branches, in source order:
1. the value already satisfies the declared type (guarded against function
   specifiers) — returned unchanged;
2. the declared type has a registered decoder — apply it;
3. the declared type is a plain-metaclass concrete class — call it,
   re-raising a `ValueError` as the type-mismatch error;
4. the declared type is another schema class — `unit(**value)`, with the
   `except TypeError` handler of `nestedShapeError`;
5. any other callable (enum classes, function converters) — call it.
(The final no-decoder branch is unreachable for the specifiers modelled
here, which are all callable.)  A key missing from the annotations raises
`KeyError`, as `self.__annotations__[key]` does. -/
def getval (cls : SClass) (key : String) (v : Value) : Except PyError Value :=
  match hu : odFind cls.ann key with
  | none => .error (.keyError key)
  | some u =>
    if !(isFuncSpec u) && typeMatches v u then .ok v
    else
      match decFind cls.cfg u with
      | some d => applyDec d v
      | none =>
        match hu2 : u with
        | .prim t =>
          if plainMeta t then
            match tyCall t v with
            | .ok r => .ok r
            | .error (.valueError _) =>
                .error (.valueError ("Expected type <" ++ tyName t ++ "> for field \"" ++ key ++ "\", but got <" ++ pyTypeName v ++ ">"))
            | .error e => .error e
          else tyCall t v
        | .nested c =>
          match v with
          | .vdict es =>
            match initValues c [] es with
            | .ok vals => .ok (.inst c vals)
            | .error (.typeError _) => nestedShapeError key v
            | .error e => .error e
          | _ => nestedShapeError key v
        | .func f => applyFunc f v
termination_by (sizeOf cls, 0, 0)
decreasing_by
  have h1 := odFind_sizeOf_lt hu
  simp only [TypeSpec.nested.sizeOf_spec] at h1
  have h2 := SClass.ann_sizeOf_lt cls
  exact Prod.Lex.left _ _ (by omega)

/-- The constructor's argument loop:
`for key, v in kwargs.items(): ...` — a declared field is coerced and stored,
an unknown name raises in strict mode and is otherwise silently skipped. -/
def assignAll (cls : SClass) (values : List (String × Value))
    (kw : List (String × Value)) : Except PyError (List (String × Value)) :=
  match kw with
  | [] => .ok values
  | p :: rest =>
    if (odFind values p.1).isSome then
      match getval cls p.1 p.2 with
      | .ok cv => assignAll cls (odSet values p.1 cv) rest
      | .error e => .error e
    else if cls.cfg.strict then
      .error (.attributeError ("\"" ++ p.1 ++ "\" is not a valid attribute of <" ++ cls.name ++ ">"))
    else assignAll cls values rest
termination_by (sizeOf cls, 1, kw.length)
decreasing_by
  · exact Prod.Lex.right _ (Prod.Lex.left _ _ (by omega))
  · exact Prod.Lex.right _ (Prod.Lex.right _ (by simp))
  · exact Prod.Lex.right _ (Prod.Lex.right _ (by simp))

/-- `Squema.__init__`: positional and named values may not be mixed (the
`assert` raises); the values table is seeded from the class field table;
positional values are zipped against the field names (in strict mode, after
the too-many-arguments check); each supplied pair then runs through the
argument loop; finally strict mode rejects fields still holding the
sentinel.  Returns the instance's `__values__` table. -/
def initValues (cls : SClass) (args : List Value)
    (kwargs : List (String × Value)) : Except PyError (List (String × Value)) :=
  if !args.isEmpty && !kwargs.isEmpty then
    .error (.assertionError "Cannot instantiate squema with args and kwargs")
  else
    let values := cls.fields
    if !args.isEmpty && cls.cfg.strict && decide (values.length < args.length) then
      .error (.valueError ("Too many arguments for <" ++ cls.name ++ ">"))
    else
      let kw := if args.isEmpty then kwargs else (values.map Prod.fst).zip args
      match assignAll cls values kw with
      | .error e => .error e
      | .ok values1 =>
        let empty := (values1.filter fun p => p.2.isUnset).map Prod.fst
        if cls.cfg.strict && !empty.isEmpty then
          .error (.valueError ("Missing value for " ++ String.intercalate ", " empty))
        else .ok values1
termination_by (sizeOf cls, 2, 0)
decreasing_by
  exact Prod.Lex.right _ (Prod.Lex.left _ _ (by omega))
end

/-- One iteration of the constructor's argument loop, processing a single
supplied `(name, raw value)` pair against the current values table (the body
of the `for key, v in kwargs.items()` loop, used to state lemmas about
`assignAll`). -/
def stepAssign (cls : SClass) (values : List (String × Value))
    (p : String × Value) : Except PyError (List (String × Value)) :=
  if (odFind values p.1).isSome then
    match getval cls p.1 p.2 with
    | .ok cv => .ok (odSet values p.1 cv)
    | .error e => .error e
  else if cls.cfg.strict then
    .error (.attributeError ("\"" ++ p.1 ++ "\" is not a valid attribute of <" ++ cls.name ++ ">"))
  else .ok values

/-- A live schema instance: its class, its `__values__` table, and the rest
of its instance dictionary (`extra` holds the ordinary non-field attributes
attached by plain assignment in non-strict mode). -/
structure Inst where
  cls : SClass
  values : List (String × Value)
  extra : List (String × Value)

/-- Instantiate a schema class.  A freshly constructed instance's dictionary
holds nothing besides `__values__` itself. -/
def mkInst (cls : SClass) (args : List Value)
    (kwargs : List (String × Value)) : Except PyError Inst :=
  (initValues cls args kwargs).map fun vs => ⟨cls, vs, []⟩

/-- `Squema.__getattr__`: read from the values table, translating the
`KeyError` into an `AttributeError`. -/
def dunderGetattr (i : Inst) (key : String) : Except PyError Value :=
  match odFind i.values key with
  | some v => .ok v
  | none =>
      .error (.attributeError ("\"" ++ key ++ "\" is not an attribute of <" ++ i.cls.name ++ ">"))

/-- Attribute-style read via Python's attribute protocol: the instance
dictionary first, then — since the metaclass removed all fields from the
class namespace — `__getattr__`.  (Plain helper class attributes are not
modelled; no claim involves them.) -/
def attrRead (i : Inst) (key : String) : Except PyError Value :=
  match odFind i.extra key with
  | some v => .ok v
  | none => dunderGetattr i key

/-- `Squema.__getitem__`. -/
def getitemM (i : Inst) (key : String) : Except PyError Value :=
  if (odFind i.values key).isSome then dunderGetattr i key
  else .error (.keyError ("\"" ++ key ++ "\" is not a key of <" ++ i.cls.name ++ ">"))

/-- `Squema.__setattr__`: a declared field is re-coerced and stored when the
policy is mutable and rejected otherwise; a non-field name attaches to the
instance dictionary in non-strict mode and is rejected in strict mode. -/
def setattrM (i : Inst) (key : String) (v : Value) : Except PyError Inst :=
  if (odFind i.values key).isSome then
    if i.cls.cfg.mutable then
      (getval i.cls key v).map fun cv => ⟨i.cls, odSet i.values key cv, i.extra⟩
    else .error (.typeError ("<" ++ i.cls.name ++ "> is immutable"))
  else if !i.cls.cfg.strict then .ok ⟨i.cls, i.values, odSet i.extra key v⟩
  else .error (.valueError ("\"" ++ key ++ "\" is not a field of <" ++ i.cls.name ++ ">"))

/-- `Squema.__setitem__`: a key check, then the attribute write. -/
def setitemM (i : Inst) (key : String) (v : Value) : Except PyError Inst :=
  if (odFind i.values key).isSome then setattrM i key v
  else .error (.keyError ("\"" ++ key ++ "\" is not a key of <" ++ i.cls.name ++ ">"))

/-- `Squema.__delitem__`: the mutability gate, then — with no membership
check of any kind — `self.__values__[key] = UNSET`, which appends the key
when it was not a declared field. -/
def delitemM (i : Inst) (key : String) : Except PyError Inst :=
  if !i.cls.cfg.mutable then
    .error (.typeError ("<" ++ i.cls.name ++ "> is immutable"))
  else .ok ⟨i.cls, odSet i.values key .unset, i.extra⟩

/-- Attribute-style deletion.  The class defines no `__delattr__`, so
CPython's default applies: remove the name from the instance dictionary or
raise `AttributeError`.  Declared fields live inside `__values__`, never as
entries of the instance dictionary, so deleting one always raises. -/
def delattrM (i : Inst) (key : String) : Except PyError Inst :=
  if (odFind i.extra key).isSome then
    .ok ⟨i.cls, i.values, i.extra.filter fun p => p.1 != key⟩
  else .error (.attributeError key)

/-- `Squema.update`: keep the supplied pairs whose keys are declared fields,
reject in strict mode when anything was dropped, then bulk-write the kept
pairs into the values table with no coercion. -/
def updateM (i : Inst) (data : List (String × Value)) : Except PyError Inst :=
  let vals := data.filter fun p => (odFind i.values p.1).isSome
  if i.cls.cfg.strict && decide (data.length ≠ vals.length) then
    .error (.valueError ("Invalid fields for <" ++ i.cls.name ++ ">"))
  else .ok ⟨i.cls, odUpdateAll i.values vals, i.extra⟩

/-- `Squema.items` on a values table: every entry in strict mode, the
non-sentinel entries otherwise, in table order. -/
def itemsF (strict : Bool) (vs : List (String × Value)) :
    List (String × Value) :=
  if strict then vs else vs.filter fun p => !p.2.isUnset

/-- `Squema.items` of an instance. -/
def itemsM (i : Inst) : List (String × Value) := itemsF i.cls.cfg.strict i.values

/-- `Squema.keys` / `__iter__`. -/
def keysM (i : Inst) : List String := (itemsM i).map Prod.fst

/-- `Squema.__len__`. -/
def lenM (i : Inst) : Nat := i.values.length

/-- The `in` operator (no `__contains__` is defined, so membership iterates
`__iter__`). -/
def containsM (i : Inst) (k : String) : Bool := (keysM i).contains k

mutual
/-- `repr(value)` for the modelled values, matching Python's literal
representations; a nested schema instance renders through
`Squema.__repr__`. -/
def pyReprVal : Value → String
  | .int n => toString n
  | .str s => "\x27" ++ s ++ "\x27"
  | .bool b => if b then "True" else "False"
  | .vdict es => "\x7b" ++ String.intercalate ", " (pyReprDict es) ++ "\x7d"
  | .vlist es => "[" ++ String.intercalate ", " (pyReprList es) ++ "]"
  | .obj t p => "<" ++ tyName t ++ " object " ++ toString p ++ ">"
  | .inst c vs =>
      c.name ++ "(" ++ String.intercalate ", " (pyReprFields c.cfg.strict vs) ++ ")"
  | .unset => "UNSET"
termination_by v => sizeOf v

/-- `Squema.__repr__`'s comprehension over `items()`, with the sentinel
filter of `items` inlined. -/
def pyReprFields (strict : Bool) : List (String × Value) → List String
  | [] => []
  | p :: rest =>
    if strict || !p.2.isUnset then
      (p.1 ++ "=" ++ pyReprVal p.2) :: pyReprFields strict rest
    else pyReprFields strict rest
termination_by l => sizeOf l
decreasing_by
  all_goals cases p
  all_goals simp only [Prod.mk.sizeOf_spec, List.cons.sizeOf_spec]
  all_goals omega

def pyReprDict : List (String × Value) → List String
  | [] => []
  | p :: rest => ("\x27" ++ p.1 ++ "\x27: " ++ pyReprVal p.2) :: pyReprDict rest
termination_by l => sizeOf l
decreasing_by
  all_goals cases p
  all_goals simp only [Prod.mk.sizeOf_spec, List.cons.sizeOf_spec]
  all_goals omega

def pyReprList : List Value → List String
  | [] => []
  | v :: rest => pyReprVal v :: pyReprList rest
termination_by l => sizeOf l
end

/-- `repr(instance)`. -/
def instRepr (i : Inst) : String := pyReprVal (.inst i.cls i.values)

/-- `Squema.__hash__`: the Python string hash of `repr(self)`.  The
runtime's string hash is seed-randomized, so it enters the model as a
parameter. -/
def pyHashI (h : String → Int) (i : Inst) : Int := h (instRepr i)

/-- `Squema.__eq__`: same concrete class (classes are identified by name
here) and equal hashes of the two instances. -/
def pyEq (h : String → Int) (a b : Inst) : Bool :=
  a.cls.name == b.cls.name && pyHashI h b == pyHashI h a

/-- What `copy` hands to the `**` operator:
`self.__class__(**self.__values__.items())` passes the `dict_items` view,
not a mapping. -/
inductive StarStarArg where
  | map (es : List (String × Value))
  | itemsView (es : List (String × Value))

/-- CPython's `**` unpacking: it requires a mapping (an object with a `keys`
method); a `dict_items` view is not one and is rejected with `TypeError`. -/
def starstarUnpack : StarStarArg → Except PyError (List (String × Value))
  | .map es => .ok es
  | .itemsView _ =>
      .error (.typeError "argument after ** must be a mapping, not dict_items")

/-- `Squema.copy`. -/
def copyM (i : Inst) : Except PyError Inst :=
  match starstarUnpack (.itemsView i.values) with
  | .ok kw => mkInst i.cls [] kw
  | .error e => .error e

/-- The module-level `bases` generator: it yields each DIRECT base of the
class; the recursive call `bases(base)` in its body only builds a fresh
generator object that is never iterated (there is no `yield from`), so no
ancestor beyond the direct bases is ever produced. -/
def basesWalk (t : TyKey) : List TyKey := tyBases t

/-- The encoder lookup inside `encode`'s fallback loop. -/
def firstEnc (cfg : Config) : List TyKey → Option EncTag
  | [] => none
  | t :: rest =>
    match odFind cfg.encoders t with
    | some e => some e
    | none => firstEnc cfg rest

/-- `Squema.encode` (classmethod): the exact runtime type's encoder if
registered; else a schema instance becomes the ordered mapping of its items;
else the first registered encoder along the `bases` walk; else the
unsupported-type `TypeError`. -/
def encode (cfg : Config) (v : Value) : Except PyError Value :=
  match odFind cfg.encoders (typeKeyOf v) with
  | some e => applyEnc e v
  | none =>
    match v with
    | .inst c vs => .ok (.vdict (itemsF c.cfg.strict vs))
    | _ =>
      match firstEnc cfg (basesWalk (typeKeyOf v)) with
      | some e => applyEnc e v
      | none =>
          .error (.typeError ("No encoder provided for type <" ++ pyTypeName v ++ ">"))

/-- `MetaSquema.__new__`'s field-table computation: fold the field tables of
the proper `Squema`-subclass bases, taken in reverse declaration order,
through `dict.update`; then walk the class's own annotation names in
declaration order — a name also assigned in the class namespace (re)binds
its default via dict assignment, and any other name not yet present is
appended with the sentinel. -/
def computeFields (baseTables : List (List (String × Value)))
    (ns : List (String × Value)) (annKeys : List String) :
    List (String × Value) :=
  let inherited := baseTables.reverse.foldl odUpdateAll []
  annKeys.foldl
    (fun fields key =>
      match odFind ns key with
      | some v => odSet fields key v
      | none =>
        if (odFind fields key).isSome then fields else fields ++ [(key, .unset)])
    inherited

/-! ## Example classes (used by witnesses and counterexamples) -/

/-- `class Entity(Squema): boolean: bool` (from the test suite). -/
def entityCls : SClass :=
  .mk "Entity" [("boolean", .unset)] [("boolean", .prim .tBool)] defaultConfig

/-- A class with one field typed as another schema class. -/
def outerCls : SClass :=
  .mk "Outer" [("entity", .unset)] [("entity", .nested entityCls)] defaultConfig

/-- A two-field class: an integer and a string. -/
def pairCls : SClass :=
  .mk "Pair" [("number", .unset), ("string", .unset)]
    [("number", .prim .tInt), ("string", .prim .tStr)] defaultConfig

/-- A one-integer-field class with a mutable policy
(`__config__ = Config(mutable=True)`). -/
def mutCls : SClass :=
  .mk "MutModel" [("number", .unset)] [("number", .prim .tInt)]
    ⟨false, true, defaultEncoders, defaultDecoders⟩

/-- A one-string-field class. -/
def msgCls : SClass :=
  .mk "Msg" [("s", .unset)] [("s", .prim .tStr)] defaultConfig

/-! ## The reference-level model of `Config.__init__` (claim C9)

`Config` construction manipulates Python dict OBJECTS: `self.encoders`
initially resolves to the class-level default dict, `.copy()` allocates a
fresh dict with the same entries, and `.update(...)` mutates the dict it is
called on in place.  To state the frame property ("the shared defaults are
never mutated") the dicts live on an explicit heap and configurations hold
addresses. -/

/-- Registry entries pair a type key with an opaque function identity. -/
abbrev Registry := List (TyKey × Nat)

/-- The dictionary heap; an address is an index into `cells`. -/
structure DictHeap where
  cells : List Registry

/-- Dereference an address. -/
def DictHeap.read (h : DictHeap) (a : Nat) : Registry := h.cells.getD a []

/-- `d.copy()`: allocate a fresh dict holding the same entries and return
its address. -/
def dictCopy (h : DictHeap) (a : Nat) : DictHeap × Nat :=
  (⟨h.cells ++ [h.read a]⟩, h.cells.length)

/-- `d.update(src)`: merge `src` into the dict at address `a`, in place. -/
def dictUpdate (h : DictHeap) (a : Nat) (src : Registry) : DictHeap :=
  ⟨h.cells.set a (odUpdateAll (h.read a) src)⟩

/-- A constructed policy: the two flags plus the addresses of its own
encoder/decoder dicts. -/
structure ConfigRef where
  strict : Bool
  mutable : Bool
  encoders : Nat
  decoders : Nat

/-- `Config.__init__(*, strict, mutable, encoders, decoders)`: store the
flags; then, for each registry, `self.X = self.X.copy()` (a fresh copy of
the class-level default dict at `clsEnc`/`clsDec`) followed by
`self.X.update(X or {})`. -/
def configInit (h : DictHeap) (clsEnc clsDec : Nat) (strict mutable : Bool)
    (enc dec : Option Registry) : DictHeap × ConfigRef :=
  let he := dictCopy h clsEnc
  let h2 := dictUpdate he.1 he.2 (enc.getD [])
  let hd := dictCopy h2 clsDec
  let h4 := dictUpdate hd.1 hd.2 (dec.getD [])
  (h4, ⟨strict, mutable, he.2, hd.2⟩)

/-! ## Lemmas about the ordered-dictionary operations -/

section OdLemmas

variable {κ α : Type} [DecidableEq κ]

theorem odFind_odSet_self (d : List (κ × α)) (k : κ) (v : α) :
    odFind (odSet d k v) k = some v := by
  induction d with
  | nil => simp [odSet, odFind]
  | cons p rest ih =>
    rw [odSet]
    by_cases hk : p.1 = k
    · rw [if_pos hk, odFind, if_pos rfl]
    · rw [if_neg hk, odFind, if_neg hk]
      exact ih

theorem odFind_odSet_ne {k' k : κ} (d : List (κ × α)) (v : α) (h : k' ≠ k) :
    odFind (odSet d k' v) k = odFind d k := by
  induction d with
  | nil => simp [odSet, odFind, h]
  | cons p rest ih =>
    rw [odSet]
    by_cases hk : p.1 = k'
    · rw [if_pos hk, odFind, odFind, if_neg h,
        if_neg (show ¬ p.1 = k by rw [hk]; exact h)]
    · rw [if_neg hk, odFind, odFind]
      by_cases hpk : p.1 = k
      · simp [hpk]
      · simp only [hpk, if_false]
        exact ih

/-- The key set after `d[k] = v`: unchanged when the key was present, the key
appended otherwise. -/
theorem odSet_map_fst (d : List (κ × α)) (k : κ) (v : α) :
    (odSet d k v).map Prod.fst =
      if (odFind d k).isSome then d.map Prod.fst else d.map Prod.fst ++ [k] := by
  induction d with
  | nil => simp [odSet, odFind]
  | cons p rest ih =>
    rw [odSet, odFind]
    by_cases hk : p.1 = k
    · simp [hk]
    · simp only [hk, if_false, if_neg hk, List.map_cons, ih]
      by_cases hf : (odFind rest k).isSome
      · simp [hf]
      · simp [hf]

theorem odSet_map_fst_of_isSome {d : List (κ × α)} {k : κ} (v : α)
    (h : (odFind d k).isSome) :
    (odSet d k v).map Prod.fst = d.map Prod.fst := by
  rw [odSet_map_fst, if_pos h]

/-- Presence of a key is stable under any assignment to a present key. -/
theorem odFind_isSome_odSet {d : List (κ × α)} {k' : κ} (v : α) (k : κ)
    (h : (odFind d k').isSome) :
    (odFind (odSet d k' v) k).isSome = (odFind d k).isSome := by
  by_cases hk : k' = k
  · subst hk
    rw [odFind_odSet_self]
    simp [h]
  · rw [odFind_odSet_ne _ _ hk]

/-- Two assignments to distinct, already-present keys commute. -/
theorem odSet_comm {d : List (κ × α)} {k₁ k₂ : κ} {v₁ v₂ : α}
    (hne : k₁ ≠ k₂) (h₁ : (odFind d k₁).isSome) (h₂ : (odFind d k₂).isSome) :
    odSet (odSet d k₁ v₁) k₂ v₂ = odSet (odSet d k₂ v₂) k₁ v₁ := by
  induction d with
  | nil => simp [odFind] at h₁
  | cons p rest ih =>
    by_cases e₁ : p.1 = k₁
    · have e₂ : ¬ p.1 = k₂ := fun h => hne (e₁ ▸ h ▸ rfl)
      rw [odSet, if_pos e₁, odSet, if_neg (show ¬ (k₁ = k₂) from hne),
        odSet, if_neg e₂, odSet, if_pos e₁]
    · by_cases e₂ : p.1 = k₂
      · rw [odSet, if_neg e₁, odSet, if_pos e₂, odSet, if_pos e₂,
          odSet, if_neg (show ¬ (k₂ = k₁) from fun h => hne h.symm)]
      · rw [odFind, if_neg e₁] at h₁
        rw [odFind, if_neg e₂] at h₂
        rw [odSet, if_neg e₁, odSet, if_neg e₂, odSet, if_neg e₂,
          odSet, if_neg e₁, ih h₁ h₂]

/-- A bulk update whose keys are disjoint from `k` leaves the lookup of `k`
unchanged. -/
theorem odFind_odUpdateAll_none {src : List (κ × α)} {k : κ}
    (h : odFind src k = none) (d : List (κ × α)) :
    odFind (odUpdateAll d src) k = odFind d k := by
  induction src generalizing d with
  | nil => rfl
  | cons p rest ih =>
    rw [odFind] at h
    by_cases hk : p.1 = k
    · simp [hk] at h
    · simp only [hk, if_false] at h
      show odFind (odUpdateAll (odSet d p.1 p.2) rest) k = _
      rw [ih h, odFind_odSet_ne _ _ hk]

/-- A bulk update whose keys are all present keeps the key list unchanged. -/
theorem odUpdateAll_map_fst_of_present {src d : List (κ × α)}
    (h : ∀ p ∈ src, (odFind d p.1).isSome) :
    (odUpdateAll d src).map Prod.fst = d.map Prod.fst := by
  induction src generalizing d with
  | nil => rfl
  | cons p rest ih =>
    show ((odUpdateAll (odSet d p.1 p.2) rest).map Prod.fst) = _
    have hp : (odFind d p.1).isSome := h p (by simp)
    rw [ih, odSet_map_fst_of_isSome _ hp]
    intro q hq
    rw [odFind_isSome_odSet _ _ hp]
    exact h q (by simp [hq])

theorem odFind_isSome_iff_mem {κ α : Type} [DecidableEq κ]
    {d : List (κ × α)} {k : κ} :
    (odFind d k).isSome ↔ k ∈ d.map Prod.fst := by
  induction d with
  | nil => simp [odFind]
  | cons p rest ih =>
    rw [odFind]
    by_cases hk : p.1 = k
    · simp [hk]
    · simp only [hk, if_false, List.map_cons, List.mem_cons, ih]
      constructor
      · exact Or.inr
      · rintro (h | h)
        · exact absurd h.symm hk
        · exact h

theorem odFind_eq_none_iff {κ α : Type} [DecidableEq κ]
    {d : List (κ × α)} {k : κ} :
    odFind d k = none ↔ k ∉ d.map Prod.fst := by
  rw [← odFind_isSome_iff_mem, ← Option.not_isSome_iff_eq_none]

end OdLemmas

/-! ## Lemmas about the constructor's argument loop -/

theorem assignAll_nil (cls : SClass) (values : List (String × Value)) :
    assignAll cls values [] = .ok values := by
  rw [assignAll]

theorem assignAll_cons (cls : SClass) (values : List (String × Value))
    (p : String × Value) (rest : List (String × Value)) :
    assignAll cls values (p :: rest) =
      match stepAssign cls values p with
      | .ok v1 => assignAll cls v1 rest
      | .error e => .error e := by
  rw [assignAll, stepAssign]
  cases hf : (odFind values p.1).isSome
  · simp only [hf, Bool.false_eq_true, if_false]
    cases hs : cls.cfg.strict <;> simp [hs]
  · simp only [hf, if_true]
    cases hg : getval cls p.1 p.2 <;> simp

theorem stepAssign_of_present {cls : SClass} {values : List (String × Value)}
    {p : String × Value} {cv : Value}
    (hf : (odFind values p.1).isSome) (hg : getval cls p.1 p.2 = .ok cv) :
    stepAssign cls values p = .ok (odSet values p.1 cv) := by
  rw [stepAssign, if_pos hf, hg]

theorem stepAssign_of_absent {cls : SClass} {values : List (String × Value)}
    {p : String × Value}
    (hf : (odFind values p.1).isSome = false) (hs : cls.cfg.strict = false) :
    stepAssign cls values p = .ok values := by
  rw [stepAssign]
  simp [hf, hs]

/-- Inversion for a successful loop iteration: either the name was a
declared field and its coercion succeeded, or the name was unknown and
non-strict mode skipped it. -/
theorem stepAssign_ok_cases {cls : SClass} {values w : List (String × Value)}
    {p : String × Value} (h : stepAssign cls values p = .ok w) :
    ((odFind values p.1).isSome = true ∧
      ∃ cv, getval cls p.1 p.2 = .ok cv ∧ w = odSet values p.1 cv) ∨
    ((odFind values p.1).isSome = false ∧ cls.cfg.strict = false ∧
      w = values) := by
  rw [stepAssign] at h
  cases hf : (odFind values p.1).isSome
  · simp only [hf, Bool.false_eq_true, if_false] at h
    cases hs : cls.cfg.strict
    · simp only [hs, Bool.false_eq_true, if_false] at h
      exact Or.inr ⟨rfl, rfl, (Except.ok.injEq _ _ ▸ h).symm⟩
    · simp [hs] at h
  · simp only [hf, if_true] at h
    cases hg : getval cls p.1 p.2 with
    | ok cv =>
      rw [hg] at h
      exact Or.inl ⟨rfl, cv, rfl, (Except.ok.injEq _ _ ▸ h).symm⟩
    | error e => rw [hg] at h; cases h

/-- A successful loop iteration never changes the key list of the values
table. -/
theorem stepAssign_ok_map_fst {cls : SClass} {values w : List (String × Value)}
    {p : String × Value} (h : stepAssign cls values p = .ok w) :
    w.map Prod.fst = values.map Prod.fst := by
  rcases stepAssign_ok_cases h with ⟨hf, cv, _, hw⟩ | ⟨_, _, hw⟩
  · rw [hw, odSet_map_fst_of_isSome _ hf]
  · rw [hw]

/-- A successful run of the whole loop never changes the key list. -/
theorem assignAll_ok_map_fst {cls : SClass} {kw values v' : List (String × Value)}
    (h : assignAll cls values kw = .ok v') :
    v'.map Prod.fst = values.map Prod.fst := by
  induction kw generalizing values with
  | nil =>
    rw [assignAll_nil] at h
    cases h
    rfl
  | cons p rest ih =>
    rw [assignAll_cons] at h
    cases hs : stepAssign cls values p with
    | ok v1 =>
      rw [hs] at h
      exact (ih h).trans (stepAssign_ok_map_fst hs)
    | error e => rw [hs] at h; cases h

/-- In non-strict mode, a supplied pair whose name is not a declared field is
a no-op of the loop, wherever it occurs. -/
theorem assignAll_skip {cls : SClass} {values : List (String × Value)}
    {key : String} {v : Value} {kw1 kw2 : List (String × Value)}
    (hstrict : cls.cfg.strict = false)
    (habs : odFind values key = none) :
    assignAll cls values (kw1 ++ (key, v) :: kw2) =
      assignAll cls values (kw1 ++ kw2) := by
  induction kw1 generalizing values with
  | nil =>
    simp only [List.nil_append]
    rw [assignAll_cons,
      stepAssign_of_absent (by simp [habs]) hstrict]
  | cons q rest ih =>
    simp only [List.cons_append]
    rw [assignAll_cons, assignAll_cons]
    cases hs : stepAssign cls values q with
    | ok v1 =>
      have habs1 : odFind v1 key = none := by
        rw [odFind_eq_none_iff, stepAssign_ok_map_fst hs,
          ← odFind_eq_none_iff]
        exact habs
      exact ih habs1
    | error e => rfl

/-- Two successful iterations at distinct names commute. -/
theorem stepAssign_swap {cls : SClass} {values v1 v2 : List (String × Value)}
    {x y : String × Value} (hne : x.1 ≠ y.1)
    (hx : stepAssign cls values x = .ok v1)
    (hy : stepAssign cls v1 y = .ok v2) :
    ∃ w, stepAssign cls values y = .ok w ∧ stepAssign cls w x = .ok v2 := by
  rcases stepAssign_ok_cases hx with ⟨hfx, cvx, hgx, hv1⟩ | ⟨hfx, hsx, hv1⟩
  · rcases stepAssign_ok_cases hy with ⟨hfy, cvy, hgy, hv2⟩ | ⟨hfy, hsy, hv2⟩
    · -- both names are declared fields
      have hfy0 : (odFind values y.1).isSome := by
        rw [odFind_isSome_iff_mem, ← stepAssign_ok_map_fst hx,
          ← odFind_isSome_iff_mem]
        exact hfy
      refine ⟨odSet values y.1 cvy, stepAssign_of_present hfy0 hgy, ?_⟩
      have hfx1 : (odFind (odSet values y.1 cvy) x.1).isSome := by
        rw [odFind_isSome_iff_mem, odSet_map_fst_of_isSome _ hfy0,
          ← odFind_isSome_iff_mem]
        exact hfx
      rw [stepAssign_of_present hfx1 hgx, hv2, hv1,
        odSet_comm hne hfx hfy0]
    · -- x declared, y unknown (skipped, so non-strict)
      have hfy0 : (odFind values y.1).isSome = false := by
        rw [← Bool.not_eq_true]
        rw [← Bool.not_eq_true] at hfy
        intro hmem
        apply hfy
        rw [odFind_isSome_iff_mem, stepAssign_ok_map_fst hx,
          ← odFind_isSome_iff_mem]
        exact hmem
      refine ⟨values, stepAssign_of_absent hfy0 hsy, ?_⟩
      rw [hv2]
      exact hx
  · -- x unknown (skipped): the first iteration was the identity
    refine ⟨v2, hv1 ▸ hy, ?_⟩
    have hfx2 : (odFind v2 x.1).isSome = false := by
      rw [← Bool.not_eq_true]
      rw [← Bool.not_eq_true] at hfx
      intro hmem
      apply hfx
      rw [odFind_isSome_iff_mem] at hmem ⊢
      rw [stepAssign_ok_map_fst hy, hv1] at hmem
      exact hmem
    exact stepAssign_of_absent hfx2 hsx

/-- Reordering the supplied pairs (with pairwise-distinct names) cannot
change the result of a successful run of the loop. -/
theorem assignAll_perm (cls : SClass) {kw kw' : List (String × Value)}
    (hperm : kw.Perm kw') :
    (kw.map Prod.fst).Nodup →
      ∀ {values v' : List (String × Value)},
        assignAll cls values kw = .ok v' → assignAll cls values kw' = .ok v' := by
  induction hperm with
  | nil =>
    intro _ values v' h
    exact h
  | cons x t ih =>
    intro hnd values v' h
    rw [List.map_cons, List.nodup_cons] at hnd
    rw [assignAll_cons] at h ⊢
    cases hs : stepAssign cls values x with
    | ok v1 =>
      rw [hs] at h
      have h1 : assignAll cls v1 _ = .ok v' := h
      show assignAll cls v1 _ = .ok v'
      exact ih hnd.2 h1
    | error e =>
      rw [hs] at h
      exact Except.noConfusion h
  | swap x y t =>
    intro hnd values v' h
    rw [assignAll_cons] at h
    cases hsy : stepAssign cls values y with
    | error e =>
      rw [hsy] at h
      exact Except.noConfusion h
    | ok v1 =>
      rw [hsy] at h
      have h1 : assignAll cls v1 (x :: t) = .ok v' := h
      rw [assignAll_cons] at h1
      cases hsx : stepAssign cls v1 x with
      | error e =>
        rw [hsx] at h1
        exact Except.noConfusion h1
      | ok v2 =>
        rw [hsx] at h1
        have h2 : assignAll cls v2 t = .ok v' := h1
        have hne : y.1 ≠ x.1 := by
          rw [List.map_cons, List.map_cons, List.nodup_cons] at hnd
          exact fun hc => hnd.1 (List.mem_cons.mpr (Or.inl hc))
        obtain ⟨w, hw1, hw2⟩ := @stepAssign_swap cls values v1 v2 y x hne hsy hsx
        rw [assignAll_cons, hw1]
        show assignAll cls w (y :: t) = .ok v'
        rw [assignAll_cons, hw2]
        show assignAll cls v2 t = .ok v'
        exact h2
  | trans h12 h23 ih1 ih2 =>
    intro hnd values v' h
    exact ih2 ((h12.map Prod.fst).nodup hnd) (ih1 hnd h)

/-- Unfolding of the constructor for purely named construction. -/
theorem initValues_no_args (cls : SClass) (kwargs : List (String × Value)) :
    initValues cls [] kwargs =
      match assignAll cls cls.fields kwargs with
      | .error e => .error e
      | .ok values1 =>
        if cls.cfg.strict
            && !((values1.filter fun p => p.2.isUnset).map Prod.fst).isEmpty then
          .error (.valueError ("Missing value for "
            ++ String.intercalate ", "
                ((values1.filter fun p => p.2.isUnset).map Prod.fst)))
        else .ok values1 := by
  rw [initValues]
  simp

/-- A successfully constructed values table has exactly the field-table
keys, in declaration order. -/
theorem initValues_ok_map_fst {cls : SClass} {args : List Value}
    {kwargs vs : List (String × Value)}
    (h : initValues cls args kwargs = .ok vs) :
    vs.map Prod.fst = cls.fields.map Prod.fst := by
  rw [initValues] at h
  simp only [] at h
  split at h
  · exact Except.noConfusion h
  · split at h
    · exact Except.noConfusion h
    · split at h
      next e heq => exact Except.noConfusion h
      next values1 heq =>
        split at h
        · exact Except.noConfusion h
        · cases h
          exact assignAll_ok_map_fst heq

/-- Non-dependent unfolding of `__getval__` once the field's annotation is
known (the definition's dependent matches only serve its termination
argument). -/
theorem getval_some {cls : SClass} {key : String} {u : TypeSpec} {v : Value}
    (h : odFind cls.ann key = some u) :
    getval cls key v =
      if !(isFuncSpec u) && typeMatches v u then .ok v
      else
        match decFind cls.cfg u with
        | some d => applyDec d v
        | none =>
          match u with
          | .prim t =>
            if plainMeta t then
              match tyCall t v with
              | .ok r => .ok r
              | .error (.valueError _) =>
                  .error (.valueError ("Expected type <" ++ tyName t ++ "> for field \"" ++ key ++ "\", but got <" ++ pyTypeName v ++ ">"))
              | .error e => .error e
            else tyCall t v
          | .nested c =>
            match v with
            | .vdict es =>
              match initValues c [] es with
              | .ok vals => .ok (.inst c vals)
              | .error (.typeError _) => nestedShapeError key v
              | .error e => .error e
            | _ => nestedShapeError key v
          | .func f => applyFunc f v := by
  rw [getval]
  split
  · next heq => rw [h] at heq; cases heq
  · next u2 heq =>
    rw [h] at heq
    injection heq with he
    subst he
    cases u <;> rfl

/-! ## Lemmas about the dictionary heap -/

theorem regGetD_append_lt {l : List Registry} {a : Nat} (x : Registry)
    (ha : a < l.length) : (l ++ [x]).getD a [] = l.getD a [] := by
  simp [List.getD_eq_getElem?_getD, List.getElem?_append, ha]

theorem regGetD_append_end (l : List Registry) (x : Registry) :
    (l ++ [x]).getD l.length [] = x := by
  simp [List.getD_eq_getElem?_getD]

theorem regGetD_set_ne {l : List Registry} {i j : Nat} (x : Registry)
    (hij : i ≠ j) : (l.set i x).getD j [] = l.getD j [] := by
  simp [List.getD_eq_getElem?_getD, List.getElem?_set_ne hij]

theorem regGetD_set_self {l : List Registry} {i : Nat} (x : Registry)
    (hi : i < l.length) : (l.set i x).getD i [] = x := by
  simp [List.getD_eq_getElem?_getD, List.getElem?_set_self hi]

/-- The fresh encoder dict of a constructed policy holds the class defaults
merged with the overrides. -/
theorem configInit_read_encoders (h : DictHeap) (clsEnc clsDec : Nat)
    (strict mutable : Bool) (enc dec : Option Registry)
    (hE : clsEnc < h.cells.length) :
    (configInit h clsEnc clsDec strict mutable enc dec).1.read
        (configInit h clsEnc clsDec strict mutable enc dec).2.encoders
      = odUpdateAll (h.read clsEnc) (enc.getD []) := by
  simp only [configInit, dictCopy, dictUpdate, DictHeap.read]
  rw [regGetD_set_ne _ (by simp)]
  rw [regGetD_append_lt _ (by simp)]
  rw [regGetD_set_self _ (by simp)]
  rw [regGetD_append_end]

/-- The fresh decoder dict of a constructed policy holds the class defaults
merged with the overrides. -/
theorem configInit_read_decoders (h : DictHeap) (clsEnc clsDec : Nat)
    (strict mutable : Bool) (enc dec : Option Registry)
    (hD : clsDec < h.cells.length) :
    (configInit h clsEnc clsDec strict mutable enc dec).1.read
        (configInit h clsEnc clsDec strict mutable enc dec).2.decoders
      = odUpdateAll (h.read clsDec) (dec.getD []) := by
  simp only [configInit, dictCopy, dictUpdate, DictHeap.read]
  rw [regGetD_set_self _ (by simp)]
  rw [regGetD_append_end]
  rw [regGetD_set_ne _ (by omega)]
  rw [regGetD_append_lt _ hD]

/-! ## The claims -/

/-- C1: the claim states that `copy()` always succeeds on a well-constructed
instance and reproduces it up to the library's equality.  The code's `copy`
is `self.__class__(**self.__values__.items())`: the `**` operator receives a
`dict_items` view, which is not a mapping, so EVERY call of `copy()` — on
any instance whatsoever — raises
`TypeError: argument after ** must be a mapping, not dict_items` before any
construction can happen.  (The spec itself flags this line as a latent
defect in its design notes.) -/
theorem C1_copy_always_raises (i : Inst) :
    copyM i = .error
      (.typeError "argument after ** must be a mapping, not dict_items") := rfl

/-- C3: `encode` looks up the exact runtime type, then handles schema
instances, then walks ancestor types.  The claim asserts the walk reaches
ancestors at ANY depth; but the module-level `bases` generator lacks a
`yield from` (its recursive call builds a generator that is never iterated),
so only DIRECT bases are walked: with the default registry — which carries
`date` — a value of `SubDate` (child of `date`) is encoded through `date`'s
serializer, while a value of `SubSubDate` (grandchild of `date`) raises the
unsupported-type error. -/
theorem C3_encode_only_walks_direct_bases :
    encode defaultConfig (.obj (.tUser "SubDate") 0) = .ok (.str "SubDate") ∧
    encode defaultConfig (.obj (.tUser "SubSubDate") 0) =
      .error (.typeError "No encoder provided for type <SubSubDate>") :=
  ⟨rfl, rfl⟩

/-- C8: coercing a mapping-shaped raw value for a field declared as another
schema class does construct the nested instance (first conjunct).  For a
non-mapping raw value, however, the claimed shape-mismatch `TypeError` is
never raised: the handler interpolates `value.__name__` into its message,
and a non-class value has no `__name__`, so the formatting itself fails and
an `AttributeError` escapes instead (second conjunct, at raw value `5`). -/
theorem C8_nested_coercion_error_is_attribute_error :
    getval outerCls "entity" (.vdict [("boolean", .bool true)]) =
      .ok (.inst entityCls [("boolean", .bool true)]) ∧
    getval outerCls "entity" (.int 5) =
      .error (.attributeError
        "\x27int\x27 object has no attribute \x27__name__\x27") := by
  constructor
  · rw [getval_some (show odFind outerCls.ann "entity" =
        some (TypeSpec.nested entityCls) from rfl)]
    norm_num [isFuncSpec, typeMatches, decFind]
    rw [show initValues entityCls [] [("boolean", Value.bool true)] =
        .ok [("boolean", Value.bool true)] from ?e1]
    case e1 =>
      have ha : assignAll entityCls entityCls.fields
          [("boolean", Value.bool true)] =
          .ok [("boolean", Value.bool true)] := by
        rw [assignAll_cons]
        rw [show stepAssign entityCls entityCls.fields
            ("boolean", Value.bool true) =
            .ok [("boolean", Value.bool true)] from ?e2]
        case e2 =>
          rw [stepAssign]
          rw [getval_some (show odFind entityCls.ann "boolean" =
              some (TypeSpec.prim TyKey.tBool) from rfl)]
          norm_num [isFuncSpec, typeMatches, odFind, entityCls, SClass.fields,
            SClass.ann, SClass.cfg, decFind, defaultConfig, defaultDecoders,
            odSet]
        show assignAll entityCls [("boolean", Value.bool true)] [] =
          Except.ok [("boolean", Value.bool true)]
        exact assignAll_nil _ _
      rw [initValues_no_args, ha]
      show (if (entityCls.cfg.strict && !(List.map Prod.fst
          (List.filter (fun p => p.2.isUnset)
            [("boolean", Value.bool true)])).isEmpty) = true
          then _ else _) = _
      norm_num [entityCls, SClass.cfg, defaultConfig]
  · rw [getval_some (show odFind outerCls.ann "entity" =
        some (TypeSpec.nested entityCls) from rfl)]
    norm_num [isFuncSpec, typeMatches, decFind, nestedShapeError, dunderName,
      pyTypeName]
    rfl

/-- C9: constructing a policy with encoder/decoder overrides copies the
class-level default dicts before merging the overrides in: afterwards the
heap cells holding the shared defaults are untouched, and every default
entry whose key is not overridden is still readable through the new policy's
own registries. -/
theorem C9_configInit_copies_defaults (h : DictHeap) (clsEnc clsDec : Nat)
    (strict mutable : Bool) (enc dec : Option Registry)
    (hE : clsEnc < h.cells.length) (hD : clsDec < h.cells.length) :
    (configInit h clsEnc clsDec strict mutable enc dec).1.read clsEnc
        = h.read clsEnc
    ∧ (configInit h clsEnc clsDec strict mutable enc dec).1.read clsDec
        = h.read clsDec
    ∧ (∀ k, odFind (enc.getD []) k = none →
        odFind ((configInit h clsEnc clsDec strict mutable enc dec).1.read
          (configInit h clsEnc clsDec strict mutable enc dec).2.encoders) k
          = odFind (h.read clsEnc) k)
    ∧ (∀ k, odFind (dec.getD []) k = none →
        odFind ((configInit h clsEnc clsDec strict mutable enc dec).1.read
          (configInit h clsEnc clsDec strict mutable enc dec).2.decoders) k
          = odFind (h.read clsDec) k) := by
  refine ⟨?_, ?_, ?_, ?_⟩
  · simp only [configInit, dictCopy, dictUpdate, DictHeap.read]
    rw [regGetD_set_ne _ (by simp; omega)]
    rw [regGetD_append_lt _ (by simp; omega)]
    rw [regGetD_set_ne _ (by omega)]
    rw [regGetD_append_lt _ (by omega)]
  · simp only [configInit, dictCopy, dictUpdate, DictHeap.read]
    rw [regGetD_set_ne _ (by simp; omega)]
    rw [regGetD_append_lt _ (by simp; omega)]
    rw [regGetD_set_ne _ (by omega)]
    rw [regGetD_append_lt _ (by omega)]
  · intro k hk
    rw [configInit_read_encoders h clsEnc clsDec strict mutable enc dec hE]
    exact odFind_odUpdateAll_none hk _
  · intro k hk
    rw [configInit_read_decoders h clsEnc clsDec strict mutable enc dec hD]
    exact odFind_odUpdateAll_none hk _

/-- A heap with the two default registries, for the C9 witness: cell 0 is
the class-level encoder dict, cell 1 the decoder dict (entries pair a type
key with an opaque function identity). -/
def wHeap : DictHeap := ⟨[[(.tDate, 0)], [(.tTime, 1)]]⟩

theorem C9_configInit_copies_defaults_witness :
    (configInit wHeap 0 1 false false (some [(.tDate, 5)]) none).1.read 0
        = wHeap.read 0
    ∧ (configInit wHeap 0 1 false false (some [(.tDate, 5)]) none).1.read 1
        = wHeap.read 1
    ∧ (∀ k, odFind ((some [((.tDate : TyKey), (5 : Nat))]).getD []) k = none →
        odFind ((configInit wHeap 0 1 false false (some [(.tDate, 5)]) none).1.read
          (configInit wHeap 0 1 false false (some [(.tDate, 5)]) none).2.encoders) k
          = odFind (wHeap.read 0) k)
    ∧ (∀ k, odFind ((none : Option Registry).getD []) k = none →
        odFind ((configInit wHeap 0 1 false false (some [(.tDate, 5)]) none).1.read
          (configInit wHeap 0 1 false false (some [(.tDate, 5)]) none).2.decoders) k
          = odFind (wHeap.read 1) k) :=
  C9_configInit_copies_defaults wHeap 0 1 false false (some [(.tDate, 5)]) none
    (by decide) (by decide)

/-! Claim C6 concerns `__eq__`/`__hash__`: equality is same class plus equal
string hashes of the two `repr`s.  The repr-identity characterization the
claim asserts holds exactly when the (seed-randomized) string hash does not
collide on the instances' reprs. -/

/-- An instance `Msg(s=\x27ab\x27)` of the one-string-field class. -/
def c6a : Inst := ⟨msgCls, [("s", .str "ab")], []⟩

/-- An instance `Msg(s=\x27cd\x27)` of the one-string-field class. -/
def c6b : Inst := ⟨msgCls, [("s", .str "cd")], []⟩

theorem c6a_repr : instRepr c6a = "Msg(s=\x27ab\x27)" := by
  simp only [instRepr, c6a, msgCls]
  rw [pyReprVal]
  rw [pyReprFields]
  simp only [SClass.cfg, defaultConfig, Value.isUnset]
  rw [pyReprVal, pyReprFields]
  rfl

theorem c6b_repr : instRepr c6b = "Msg(s=\x27cd\x27)" := by
  simp only [instRepr, c6b, msgCls]
  rw [pyReprVal]
  rw [pyReprFields]
  simp only [SClass.cfg, defaultConfig, Value.isUnset]
  rw [pyReprVal, pyReprFields]
  rfl

/-- C6 (counterexample): the claimed equivalence "equal iff same class and
identical reprs" is not a consequence of the implementation: `__eq__`
compares HASHES of the reprs, so any string hash that collides on two
distinct reprs — here a hash extracted from the string length, colliding on
`Msg(s=\x27ab\x27)` vs `Msg(s=\x27cd\x27)` — makes two instances with
different reprs compare equal. -/
theorem C6_eq_is_not_repr_identity :
    ¬ ∀ (h : String → Int), ∀ a b : Inst,
        (pyEq h a b = true ↔
          (a.cls.name = b.cls.name ∧ instRepr a = instRepr b)) := by
  intro hall
  have hcol : pyEq (fun s => (s.length : Int)) c6a c6b = true := by
    simp only [pyEq, pyHashI]
    rw [c6a_repr, c6b_repr]
    decide
  have := (hall (fun s => (s.length : Int)) c6a c6b).mp hcol
  rw [c6a_repr, c6b_repr] at this
  exact absurd this.2 (by decide)

/-- C6 (amended): two instances are equal iff they are of the same concrete
class and the hashes of their reprs agree; identical class and repr always
imply equality, and equality always implies equal hashes.  (Equality implies
identical reprs only when the hash is collision-free on the two reprs, which
the seed-randomized runtime hash cannot guarantee.) -/
theorem C6_eq_same_class_and_hash (h : String → Int) (a b : Inst) :
    ((a.cls.name = b.cls.name ∧ instRepr a = instRepr b) → pyEq h a b = true)
    ∧ (pyEq h a b = true → pyHashI h a = pyHashI h b)
    ∧ (pyEq h a b = true ↔
        (a.cls.name = b.cls.name ∧ pyHashI h a = pyHashI h b)) := by
  simp only [pyEq, pyHashI, Bool.and_eq_true, beq_iff_eq]
  refine ⟨?_, ?_, ?_⟩
  · rintro ⟨h1, h2⟩
    exact ⟨h1, by rw [h2]⟩
  · rintro ⟨h1, h2⟩
    exact h2.symm
  · constructor
    · rintro ⟨h1, h2⟩
      exact ⟨h1, h2.symm⟩
    · rintro ⟨h1, h2⟩
      exact ⟨h1, h2.symm⟩

theorem C6_eq_same_class_and_hash_witness :
    pyEq (fun s => (s.length : Int)) c6a c6a = true :=
  (C6_eq_same_class_and_hash (fun s => (s.length : Int)) c6a c6a).1 ⟨rfl, rfl⟩

/-- The keys yielded by `items()` are a subsequence of the values table's
keys (in strict mode all of them, otherwise the sentinel-free ones). -/
theorem itemsF_map_fst_sublist (s : Bool) (vs : List (String × Value)) :
    ((itemsF s vs).map Prod.fst).Sublist (vs.map Prod.fst) := by
  rw [itemsF]
  cases s
  · simp only [Bool.false_eq_true, if_false]
    exact (List.filter_sublist vs).map Prod.fst
  · simp

/-- Instantiation succeeds exactly when the constructor produces a values
table, and the fresh instance carries it with an empty extra bag. -/
theorem mkInst_ok_iff {cls : SClass} {args : List Value}
    {kwargs : List (String × Value)} {i : Inst} :
    mkInst cls args kwargs = .ok i ↔
      ∃ vs, initValues cls args kwargs = .ok vs ∧ i = ⟨cls, vs, []⟩ := by
  rw [mkInst]
  cases hin : initValues cls args kwargs with
  | ok vs =>
    simp only [Except.map, Except.ok.injEq]
    constructor
    · intro hh
      exact ⟨vs, rfl, hh.symm⟩
    · rintro ⟨vs', hvs', hi⟩
      cases hvs'
      rw [hi]
  | error e => simp [Except.map]

/-- C2 (counterexample): in non-strict mode an unknown constructor argument
is NOT attached as instance state.  Constructing `Pair` with the unknown
name `extra` succeeds but drops it entirely; attribute-style access of
`extra` afterwards raises `AttributeError` rather than returning the
supplied value, contradicting the claim's "attribute-style get returns the
supplied value" (the behaviour the code's own test `test_extra_values`
pins down). -/
theorem C2_unknown_kwarg_not_attached :
    mkInst pairCls [] [("extra", Value.bool true), ("number", Value.int 1)]
        = .ok ⟨pairCls, [("number", Value.int 1), ("string", Value.unset)], []⟩
    ∧ attrRead ⟨pairCls, [("number", Value.int 1), ("string", Value.unset)], []⟩ "extra" =
        .error (.attributeError "\"extra\" is not an attribute of <Pair>")
    ∧ ¬ (attrRead ⟨pairCls, [("number", Value.int 1), ("string", Value.unset)], []⟩ "extra" =
        .ok (Value.bool true)) := by
  refine ⟨?_, rfl, ?_⟩
  · rw [mkInst]
    rw [show initValues pairCls []
        [("extra", Value.bool true), ("number", Value.int 1)] =
        .ok [("number", Value.int 1), ("string", Value.unset)] from ?e1]
    case e1 =>
      have ha : assignAll pairCls pairCls.fields
          [("extra", Value.bool true), ("number", Value.int 1)] =
          .ok [("number", Value.int 1), ("string", Value.unset)] := by
        rw [assignAll_cons, stepAssign_of_absent
          (show (odFind pairCls.fields "extra").isSome = false from rfl)
          (show pairCls.cfg.strict = false from rfl)]
        show assignAll pairCls pairCls.fields [("number", Value.int 1)] = _
        rw [assignAll_cons]
        rw [show stepAssign pairCls pairCls.fields ("number", Value.int 1) =
            .ok [("number", Value.int 1), ("string", Value.unset)] from ?e2]
        case e2 =>
          rw [stepAssign]
          rw [getval_some (show odFind pairCls.ann "number" =
              some (TypeSpec.prim TyKey.tInt) from rfl)]
          norm_num [isFuncSpec, typeMatches, odFind, pairCls, SClass.fields,
            SClass.ann, SClass.cfg, decFind, defaultConfig, defaultDecoders,
            odSet]
        show assignAll pairCls
          [("number", Value.int 1), ("string", Value.unset)] [] = _
        exact assignAll_nil _ _
      rw [initValues_no_args, ha]
      show (if (pairCls.cfg.strict && !(List.map Prod.fst
          (List.filter (fun p => p.2.isUnset)
            [("number", Value.int 1), ("string", Value.unset)])).isEmpty) = true
          then _ else _) = _
      norm_num [pairCls, SClass.cfg, defaultConfig]
    rfl
  · intro hcontra
    rw [show attrRead ⟨pairCls,
        [("number", Value.int 1), ("string", Value.unset)], []⟩ "extra" =
        .error (.attributeError "\"extra\" is not an attribute of <Pair>")
        from rfl] at hcontra
    exact Except.noConfusion hcontra

/-- C2 (amended): in non-strict mode a named value whose name is not a
declared field is silently discarded: construction behaves exactly as if the
pair were absent, a fresh instance carries no extra state, the name is
missing from iteration, mapping-style get of it raises the not-a-key error,
and attribute-style get of it raises the not-an-attribute error (rather than
returning the supplied value). -/
theorem C2_unknown_kwarg_dropped (cls : SClass) (kw1 kw2 : List (String × Value))
    (key : String) (v : Value) (i : Inst)
    (hstrict : cls.cfg.strict = false)
    (hkey : key ∉ cls.fields.map Prod.fst) :
    mkInst cls [] (kw1 ++ (key, v) :: kw2) = mkInst cls [] (kw1 ++ kw2)
    ∧ (mkInst cls [] (kw1 ++ (key, v) :: kw2) = .ok i →
        i.extra = []
        ∧ attrRead i key = .error (.attributeError
            ("\"" ++ key ++ "\" is not an attribute of <" ++ cls.name ++ ">"))
        ∧ getitemM i key = .error (.keyError
            ("\"" ++ key ++ "\" is not a key of <" ++ cls.name ++ ">"))
        ∧ key ∉ keysM i) := by
  have habs : odFind cls.fields key = none := odFind_eq_none_iff.mpr hkey
  have hskip : initValues cls [] (kw1 ++ (key, v) :: kw2) =
      initValues cls [] (kw1 ++ kw2) := by
    rw [initValues_no_args, initValues_no_args, assignAll_skip hstrict habs]
  constructor
  · rw [mkInst, mkInst, hskip]
  · intro hok
    obtain ⟨vs, hvs, hi⟩ := mkInst_ok_iff.mp hok
    have hkeys : vs.map Prod.fst = cls.fields.map Prod.fst :=
      initValues_ok_map_fst hvs
    have hnone : odFind vs key = none := by
      rw [odFind_eq_none_iff, hkeys]
      exact hkey
    subst hi
    refine ⟨rfl, ?_, ?_, ?_⟩
    · show dunderGetattr ⟨cls, vs, []⟩ key = _
      rw [dunderGetattr]
      rw [show odFind (Inst.mk cls vs []).values key = none from hnone]
    · rw [getitemM]
      rw [show odFind (Inst.mk cls vs []).values key = none from hnone]
      rfl
    · intro hmem
      have h2 : key ∈ (itemsF cls.cfg.strict vs).map Prod.fst := hmem
      have h3 := (itemsF_map_fst_sublist cls.cfg.strict vs).subset h2
      rw [hkeys] at h3
      exact hkey h3

/-- C2 witness for the amended claim. -/
theorem C2_unknown_kwarg_dropped_witness :
    mkInst pairCls [] ([] ++ ("extra", Value.bool true) :: [("number", Value.int 1)])
      = mkInst pairCls [] ([] ++ [("number", Value.int 1)]) :=
  (C2_unknown_kwarg_dropped pairCls [] [("number", Value.int 1)]
    "extra" (Value.bool true)
    ⟨pairCls, [("number", Value.int 1), ("string", Value.unset)], []⟩
    rfl (by decide)).1

/-- Zipping truncates to the shorter list, so only the first
`len(fields)` positional values can matter. -/
theorem zip_take_length {α β : Type} :
    ∀ (l : List α) (l' : List β), l.zip (l'.take l.length) = l.zip l'
  | [], _ => by simp
  | _ :: _, [] => by simp
  | a :: l, b :: l' => by
      simp only [List.length_cons, List.take_succ_cons, List.zip_cons_cons]
      rw [zip_take_length l l']

/-- In non-strict mode positional construction is the same as named
construction with the values zipped against the field names in declaration
order. -/
theorem initValues_positional (cls : SClass) (args : List Value)
    (hstrict : cls.cfg.strict = false) :
    initValues cls args [] =
      initValues cls [] ((cls.fields.map Prod.fst).zip args) := by
  cases args with
  | nil =>
    simp only [initValues]
    simp
  | cons a as =>
    simp only [initValues]
    simp [hstrict]

/-- C10: in non-strict mode, supplying more positional values than there are
declared fields does not fail with the too-many-arguments error: the
construction coincides with (a) construction from only the first
`len(fields)` positional values, and (b) named construction from the field
names zipped (in declaration order) against the values — zipping silently
discards the excess. -/
theorem C10_excess_positional_discarded (cls : SClass) (args : List Value)
    (hstrict : cls.cfg.strict = false) :
    initValues cls args [] = initValues cls (args.take cls.fields.length) []
    ∧ initValues cls args [] =
        initValues cls [] ((cls.fields.map Prod.fst).zip args) := by
  have h2 := initValues_positional cls args hstrict
  have h1 := initValues_positional cls (args.take cls.fields.length) hstrict
  have hz : (cls.fields.map Prod.fst).zip (args.take cls.fields.length) =
      (cls.fields.map Prod.fst).zip args := by
    rw [show cls.fields.length = (cls.fields.map Prod.fst).length by simp]
    exact zip_take_length _ _
  refine ⟨?_, h2⟩
  rw [h2, ← hz]
  exact h1.symm

/-- C10 witness: a one-integer, one-string class given three positional
values behaves as if given only the first two. -/
theorem C10_excess_positional_discarded_witness :
    initValues pairCls [Value.int 7, Value.str "x", Value.int 9] [] =
      initValues pairCls
        ([Value.int 7, Value.str "x", Value.int 9].take pairCls.fields.length)
        [] :=
  (C10_excess_positional_discarded pairCls
    [Value.int 7, Value.str "x", Value.int 9] rfl).1

/-- Construction shortcut: in non-strict mode a successful argument loop is
the whole construction. -/
theorem initValues_nonstrict_ok {cls : SClass} {kwargs vs : List (String × Value)}
    (hstrict : cls.cfg.strict = false)
    (h : assignAll cls cls.fields kwargs = .ok vs) :
    initValues cls [] kwargs = .ok vs := by
  rw [initValues_no_args, h]
  show (if (cls.cfg.strict && !(List.map Prod.fst
      (List.filter (fun p => p.2.isUnset) vs)).isEmpty) = true
      then _ else _) = _
  rw [hstrict]
  simp

/-- The mutable one-field instance `MutModel(number=1)` used by the C4/C5
counterexamples. -/
def wMut : Inst := ⟨mutCls, [("number", Value.int 1)], []⟩

/-- `MutModel(number=1)` really is what the constructor produces. -/
theorem wMut_construction : mkInst mutCls [] [("number", Value.int 1)] = .ok wMut := by
  have hg : getval mutCls "number" (Value.int 1) = .ok (Value.int 1) := by
    rw [getval_some (show odFind mutCls.ann "number" =
        some (TypeSpec.prim TyKey.tInt) from rfl)]
    norm_num [isFuncSpec, typeMatches]
  have ha : assignAll mutCls mutCls.fields [("number", Value.int 1)] =
      .ok [("number", Value.int 1)] := by
    rw [assignAll_cons, stepAssign_of_present
      (show (odFind mutCls.fields "number").isSome = true from rfl) hg]
    show assignAll mutCls (odSet mutCls.fields "number" (Value.int 1)) [] =
      Except.ok [("number", Value.int 1)]
    rw [assignAll_nil]
    rfl
  rw [mkInst,
    initValues_nonstrict_ok (show mutCls.cfg.strict = false from rfl) ha]
  rfl

/-- A successful attribute write keeps the class and the key list. -/
theorem setattrM_ok_map_fst {i j : Inst} {key : String} {v : Value}
    (h : setattrM i key v = .ok j) :
    j.cls = i.cls ∧ j.values.map Prod.fst = i.values.map Prod.fst := by
  rw [setattrM] at h
  split at h
  · next hf =>
    split at h
    · cases hg : getval i.cls key v with
      | ok cv =>
        rw [hg] at h
        cases h
        exact ⟨rfl, odSet_map_fst_of_isSome _ hf⟩
      | error e => rw [hg] at h; cases h
    · exact Except.noConfusion h
  · split at h
    · cases h
      exact ⟨rfl, rfl⟩
    · exact Except.noConfusion h

/-- A successful mapping write keeps the class and the key list. -/
theorem setitemM_ok_map_fst {i j : Inst} {key : String} {v : Value}
    (h : setitemM i key v = .ok j) :
    j.cls = i.cls ∧ j.values.map Prod.fst = i.values.map Prod.fst := by
  rw [setitemM] at h
  split at h
  · exact setattrM_ok_map_fst h
  · exact Except.noConfusion h

/-- A successful bulk update keeps the class and the key list. -/
theorem updateM_ok_map_fst {i j : Inst} {data : List (String × Value)}
    (h : updateM i data = .ok j) :
    j.cls = i.cls ∧ j.values.map Prod.fst = i.values.map Prod.fst := by
  rw [updateM] at h
  split at h
  · exact Except.noConfusion h
  · cases h
    refine ⟨rfl, ?_⟩
    apply odUpdateAll_map_fst_of_present
    intro p hp
    exact (List.mem_filter.mp hp).2

/-- A successful mapping delete of a DECLARED field keeps the class and the
key list (the stored value becomes the sentinel, the key remains). -/
theorem delitemM_ok_mem_map_fst {i j : Inst} {key : String}
    (hmem : key ∈ i.values.map Prod.fst) (h : delitemM i key = .ok j) :
    j.cls = i.cls ∧ j.values.map Prod.fst = i.values.map Prod.fst := by
  rw [delitemM] at h
  split at h
  · exact Except.noConfusion h
  · cases h
    exact ⟨rfl, odSet_map_fst_of_isSome _ (odFind_isSome_iff_mem.mpr hmem)⟩

/-- The invariant of claim C4: the values table holds exactly the keys of
the class field table, in order. -/
def keysInvariant (i : Inst) : Prop :=
  i.values.map Prod.fst = i.cls.fields.map Prod.fst

/-- C4 (counterexample): the invariant is NOT preserved by every operation:
on a mutable instance, `del m["other"]` for a name that is not a declared
field assigns `UNSET` under that name, ADDING the key to the values table —
afterwards the table holds `["number", "other"]` against the single declared
field `number`. -/
theorem C4_delete_unknown_key_breaks_invariant :
    mkInst mutCls [] [("number", Value.int 1)] = .ok wMut
    ∧ delitemM wMut "other" =
        .ok ⟨mutCls, [("number", Value.int 1), ("other", Value.unset)], []⟩
    ∧ ¬ keysInvariant
        ⟨mutCls, [("number", Value.int 1), ("other", Value.unset)], []⟩ := by
  refine ⟨wMut_construction, rfl, ?_⟩
  intro hk
  exact absurd
    (show List.map Prod.fst [("number", Value.int 1), ("other", Value.unset)]
        = List.map Prod.fst mutCls.fields from hk)
    (by decide)

/-- C4 (amended): the values table holds exactly the field-table keys after
construction and after every successful attribute/mapping write, bulk
update, mapping delete OF A DECLARED FIELD, and copy (vacuously — `copy`
never succeeds); a mapping delete of a non-field name in mutable mode,
however, adds that name to the table and breaks the invariant. -/
theorem C4_keys_invariant (cls : SClass) (args : List Value)
    (kwargs data : List (String × Value)) (i j : Inst) (key : String)
    (v : Value) :
    (mkInst cls args kwargs = .ok i → keysInvariant i)
    ∧ (keysInvariant i → setattrM i key v = .ok j → keysInvariant j)
    ∧ (keysInvariant i → setitemM i key v = .ok j → keysInvariant j)
    ∧ (keysInvariant i → updateM i data = .ok j → keysInvariant j)
    ∧ (keysInvariant i → key ∈ i.values.map Prod.fst →
        delitemM i key = .ok j → keysInvariant j)
    ∧ (copyM i = .ok j → keysInvariant j) := by
  refine ⟨?_, ?_, ?_, ?_, ?_, ?_⟩
  · intro hok
    obtain ⟨vs, hvs, hi⟩ := mkInst_ok_iff.mp hok
    subst hi
    exact initValues_ok_map_fst hvs
  · intro hinv hok
    obtain ⟨hc, hk⟩ := setattrM_ok_map_fst hok
    rw [keysInvariant, hc, hk]
    exact hinv
  · intro hinv hok
    obtain ⟨hc, hk⟩ := setitemM_ok_map_fst hok
    rw [keysInvariant, hc, hk]
    exact hinv
  · intro hinv hok
    obtain ⟨hc, hk⟩ := updateM_ok_map_fst hok
    rw [keysInvariant, hc, hk]
    exact hinv
  · intro hinv hmem hok
    obtain ⟨hc, hk⟩ := delitemM_ok_mem_map_fst hmem hok
    rw [keysInvariant, hc, hk]
    exact hinv
  · intro hok
    rw [show copyM i = .error
      (.typeError "argument after ** must be a mapping, not dict_items")
      from rfl] at hok
    exact Except.noConfusion hok

/-- C4 witness for the amended claim. -/
theorem C4_keys_invariant_witness : keysInvariant wMut :=
  (C4_keys_invariant mutCls [] [("number", Value.int 1)] [] wMut wMut "x"
    Value.unset).1 wMut_construction

/-- C5 (counterexample): mapping-style deletion of a name that is NOT a
declared field on a mutable instance does not raise the claimed
not-a-field error — `__delitem__` performs no membership check at all and
assigns the sentinel under the unknown name, succeeding and growing the
values table. -/
theorem C5_delete_unknown_key_succeeds :
    mkInst mutCls [] [("number", Value.int 1)] = .ok wMut
    ∧ "other" ∉ mutCls.fields.map Prod.fst
    ∧ delitemM wMut "other" =
        .ok ⟨mutCls, [("number", Value.int 1), ("other", Value.unset)], []⟩
    ∧ ¬ ∃ e, delitemM wMut "other" = .error e := by
  refine ⟨wMut_construction, by decide, rfl, ?_⟩
  rintro ⟨e, he⟩
  exact Except.noConfusion
    (show Except.ok
        (⟨mutCls, [("number", Value.int 1), ("other", Value.unset)], []⟩ : Inst)
      = Except.error e from he)

/-- C5 (amended): mapping-style deletion checks only mutability: when the
policy is not mutable it raises the immutability error whatever the name;
when mutable it succeeds for EVERY name, storing the sentinel under it —
for a declared field the key set (hence the length) is unchanged and the
field now reads as the sentinel, for an unknown name the key is appended.
Attribute-style deletion is not implemented by the class and always fails
with a plain `AttributeError`, even for a declared field of a mutable
instance. -/
theorem C5_delete_requires_only_mutability (i : Inst) (key : String) :
    (i.cls.cfg.mutable = false →
      delitemM i key = .error (.typeError ("<" ++ i.cls.name ++ "> is immutable")))
    ∧ (i.cls.cfg.mutable = true →
        delitemM i key = .ok ⟨i.cls, odSet i.values key Value.unset, i.extra⟩)
    ∧ (i.cls.cfg.mutable = true → key ∈ i.values.map Prod.fst →
        ∃ j, delitemM i key = .ok j
          ∧ j.values.map Prod.fst = i.values.map Prod.fst
          ∧ j.values.length = i.values.length
          ∧ odFind j.values key = some Value.unset)
    ∧ (i.cls.cfg.mutable = true → key ∉ i.values.map Prod.fst →
        ∃ j, delitemM i key = .ok j
          ∧ j.values.map Prod.fst = i.values.map Prod.fst ++ [key])
    ∧ (key ∉ i.extra.map Prod.fst →
        delattrM i key = .error (.attributeError key)) := by
  refine ⟨?_, ?_, ?_, ?_, ?_⟩
  · intro hm
    rw [delitemM, hm]
    rfl
  · intro hm
    rw [delitemM, hm]
    rfl
  · intro hm hmem
    refine ⟨⟨i.cls, odSet i.values key Value.unset, i.extra⟩,
      by rw [delitemM, hm]; rfl, ?_, ?_, odFind_odSet_self _ _ _⟩
    · exact odSet_map_fst_of_isSome _ (odFind_isSome_iff_mem.mpr hmem)
    · have := congrArg List.length
        (@odSet_map_fst_of_isSome String Value _ i.values key Value.unset
          (odFind_isSome_iff_mem.mpr hmem))
      simpa using this
  · intro hm hmem
    refine ⟨⟨i.cls, odSet i.values key Value.unset, i.extra⟩,
      by rw [delitemM, hm]; rfl, ?_⟩
    rw [odSet_map_fst]
    rw [if_neg ?absent]
    case absent =>
      rw [odFind_eq_none_iff.mpr hmem]
      simp
  · intro hext
    rw [delattrM]
    rw [if_neg ?absent2]
    case absent2 =>
      rw [odFind_eq_none_iff.mpr hext]
      simp

/-- C5 witness for the amended claim. -/
theorem C5_delete_requires_only_mutability_witness :
    delitemM wMut "number" =
      .ok ⟨mutCls, odSet wMut.values "number" Value.unset, wMut.extra⟩ :=
  (C5_delete_requires_only_mutability wMut "number").2.1 rfl

/-- The key list produced by the registrar's annotation walk over any
starting table: names already present keep their position, new names are
appended in declaration order. -/
theorem computeFields_foldl_map_fst (ns : List (String × Value)) :
    ∀ (annKeys : List String) (F : List (String × Value)), annKeys.Nodup →
      ((annKeys.foldl (fun fields key =>
        match odFind ns key with
        | some v => odSet fields key v
        | none => if (odFind fields key).isSome then fields
                  else fields ++ [(key, Value.unset)]) F).map Prod.fst)
      = F.map Prod.fst
          ++ annKeys.filter (fun k => decide (k ∉ F.map Prod.fst))
  | [], F, _ => by simp
  | key :: rest, F, hnd => by
    rw [List.foldl_cons]
    have hstep : ((match odFind ns key with
        | some v => odSet F key v
        | none => if (odFind F key).isSome then F
                  else F ++ [(key, Value.unset)]).map Prod.fst)
        = if key ∈ F.map Prod.fst then F.map Prod.fst
          else F.map Prod.fst ++ [key] := by
      cases odFind ns key with
      | some v =>
        rw [odSet_map_fst]
        by_cases hmem : key ∈ F.map Prod.fst
        · rw [if_pos (odFind_isSome_iff_mem.mpr hmem), if_pos hmem]
        · rw [if_neg ?f1, if_neg hmem]
          case f1 =>
            rw [odFind_eq_none_iff.mpr hmem]
            simp
      | none =>
        by_cases hmem : key ∈ F.map Prod.fst
        · rw [if_pos (odFind_isSome_iff_mem.mpr hmem), if_pos hmem]
        · rw [if_neg ?f2, if_neg hmem]
          · simp
          case f2 =>
            rw [odFind_eq_none_iff.mpr hmem]
            simp
    rw [List.nodup_cons] at hnd
    by_cases hmem : key ∈ F.map Prod.fst
    · rw [computeFields_foldl_map_fst ns rest _ hnd.2, hstep, if_pos hmem]
      rw [List.filter_cons_of_neg (by simp [hmem])]
    · rw [computeFields_foldl_map_fst ns rest _ hnd.2, hstep, if_neg hmem]
      rw [List.filter_cons_of_pos (by simp [hmem])]
      rw [@List.filter_congr String _
        (fun k => decide (k ∉ F.map Prod.fst)) rest ?hpq]
      · simp
      case hpq =>
        intro a ha
        have hne : a ≠ key := fun hc => hnd.1 (hc ▸ ha)
        simp [hne]

/-- The key list of the registrar's output: the inherited keys (bases folded
in reverse declaration order) followed by the genuinely new annotated names
in declaration order. -/
theorem computeFields_map_fst (baseTables : List (List (String × Value)))
    (ns : List (String × Value)) (annKeys : List String)
    (hnd : annKeys.Nodup) :
    (computeFields baseTables ns annKeys).map Prod.fst =
      (baseTables.reverse.foldl odUpdateAll []).map Prod.fst
        ++ annKeys.filter (fun k =>
            decide (k ∉ (baseTables.reverse.foldl odUpdateAll []).map Prod.fst)) := by
  rw [computeFields]
  exact computeFields_foldl_map_fst ns annKeys _ hnd

/-- Reordering a valid named-value set cannot change the constructed values
table. -/
theorem initValues_perm {cls : SClass} {kw kw' vs : List (String × Value)}
    (hperm : kw.Perm kw') (hnd : (kw.map Prod.fst).Nodup)
    (h : initValues cls [] kw = .ok vs) :
    initValues cls [] kw' = .ok vs := by
  rw [initValues_no_args] at h ⊢
  cases ha : assignAll cls cls.fields kw with
  | error e =>
    rw [ha] at h
    exact Except.noConfusion h
  | ok v1 =>
    rw [ha] at h
    rw [assignAll_perm cls hperm hnd ha]
    exact h

/-- C7: for a schema class produced by the registrar, field order is the
declaration order — inherited fields first (bases contributing in reverse
declaration order, a field redeclared in the subclass keeping its original
position), then the newly introduced fields in declaration order — and a
successfully constructed instance's values table lists exactly those keys in
exactly that order, whatever the order of the supplied named values (a
permutation of the supplied pairs yields the identical instance), with
`items()` yielding a subsequence of that key order. -/
theorem C7_declaration_order (baseTables : List (List (String × Value)))
    (ns : List (String × Value)) (annKeys : List String) (name : String)
    (annT : List (String × TypeSpec)) (cfg : Config) (cls : SClass)
    (kw kw' : List (String × Value)) (i : Inst)
    (hcls : cls = SClass.mk name (computeFields baseTables ns annKeys) annT cfg)
    (hnd : annKeys.Nodup) (hperm : kw.Perm kw')
    (hndkw : (kw.map Prod.fst).Nodup) :
    (computeFields baseTables ns annKeys).map Prod.fst =
        (baseTables.reverse.foldl odUpdateAll []).map Prod.fst
          ++ annKeys.filter (fun k =>
              decide (k ∉ (baseTables.reverse.foldl odUpdateAll []).map Prod.fst))
    ∧ (mkInst cls [] kw = .ok i →
        i.values.map Prod.fst = (computeFields baseTables ns annKeys).map Prod.fst
        ∧ mkInst cls [] kw' = .ok i
        ∧ (keysM i).Sublist (i.values.map Prod.fst)) := by
  refine ⟨computeFields_map_fst baseTables ns annKeys hnd, ?_⟩
  intro hok
  obtain ⟨vs, hvs, hi⟩ := mkInst_ok_iff.mp hok
  have hkeys := initValues_ok_map_fst hvs
  refine ⟨?_, ?_, ?_⟩
  · subst hi
    rw [hkeys, hcls]
    rfl
  · rw [mkInst, initValues_perm hperm hndkw hvs]
    subst hi
    rfl
  · subst hi
    exact itemsF_map_fst_sublist _ _

/-- A two-field subclass built by the registrar: it inherits `number` from
its base (redeclaring it in place) and appends its own `data`. -/
def wSubCls : SClass :=
  SClass.mk "Sub" (computeFields [[("number", Value.unset)]] [] ["number", "data"])
    [("number", TypeSpec.prim TyKey.tInt), ("data", TypeSpec.prim TyKey.tStr)]
    defaultConfig

/-- The instance `Sub(data="x", number=1)`. -/
def wSubInst : Inst :=
  ⟨wSubCls, [("number", Value.int 1), ("data", Value.str "x")], []⟩

theorem wSub_construction :
    mkInst wSubCls [] [("data", Value.str "x"), ("number", Value.int 1)] =
      .ok wSubInst := by
  have hg1 : getval wSubCls "data" (Value.str "x") = .ok (Value.str "x") := by
    rw [getval_some (show odFind wSubCls.ann "data" =
        some (TypeSpec.prim TyKey.tStr) from rfl)]
    norm_num [isFuncSpec, typeMatches]
  have hg2 : getval wSubCls "number" (Value.int 1) = .ok (Value.int 1) := by
    rw [getval_some (show odFind wSubCls.ann "number" =
        some (TypeSpec.prim TyKey.tInt) from rfl)]
    norm_num [isFuncSpec, typeMatches]
  have ha : assignAll wSubCls wSubCls.fields
      [("data", Value.str "x"), ("number", Value.int 1)] =
      .ok [("number", Value.int 1), ("data", Value.str "x")] := by
    rw [assignAll_cons, stepAssign_of_present
      (show (odFind wSubCls.fields "data").isSome = true from rfl) hg1]
    show assignAll wSubCls (odSet wSubCls.fields "data" (Value.str "x"))
      [("number", Value.int 1)] = _
    rw [assignAll_cons, stepAssign_of_present
      (show (odFind (odSet wSubCls.fields "data" (Value.str "x"))
        "number").isSome = true from rfl) hg2]
    show assignAll wSubCls (odSet (odSet wSubCls.fields "data" (Value.str "x"))
      "number" (Value.int 1)) [] = _
    rw [assignAll_nil]
    rfl
  rw [mkInst,
    initValues_nonstrict_ok (show wSubCls.cfg.strict = false from rfl) ha]
  rfl

/-- C7 witness: constructing `Sub` from the same named values in the
opposite order yields the identical instance. -/
theorem C7_declaration_order_witness :
    mkInst wSubCls [] [("number", Value.int 1), ("data", Value.str "x")] =
      .ok wSubInst :=
  ((C7_declaration_order [[("number", Value.unset)]] [] ["number", "data"]
      "Sub"
      [("number", TypeSpec.prim TyKey.tInt), ("data", TypeSpec.prim TyKey.tStr)]
      defaultConfig wSubCls
      [("data", Value.str "x"), ("number", Value.int 1)]
      [("number", Value.int 1), ("data", Value.str "x")] wSubInst
      rfl (by decide) (List.Perm.swap _ _ _) (by decide)).2
    wSub_construction).2.1

end Squema
